import Mathlib

/-!
Verification of the Session Reconciliation & Status Engine of the
`claude-menubar` repository (Rust sources under `src/`).

The Rust code is shallowly embedded:
* `f64` ages become `ℚ` (only order comparisons against the constants
  `3.0`, `10.0`, `120.0` matter);
* `serde_json::Value` becomes the inductive `Json` below, and a JSONL
  transcript tail becomes the list of its successfully parsed lines
  (the Rust loop silently skips unparseable lines, so they never reach
  the fold);
* `HashMap`/`HashSet` become association lists / lists, used only
  through membership, exactly as the Rust code uses them;
* filesystem access of `resolve_transcript` becomes an explicit
  `ResolveEnv` record of oracles.
-/

namespace ClaudeMenubar

/-- `Status` enum from `src/state.rs`. -/
inductive Status
  | Active
  | Pending
  | Idle
deriving DecidableEq, Repr

/-- `Terminal` kind as used by `merge_sessions` in `src/terminal.rs`
(`Terminal::ITerm2`, `Terminal::Alacritty`, `Terminal::Unknown`). -/
inductive Terminal
  | ITerm2
  | Alacritty
  | Unknown
deriving DecidableEq, Repr

/-- Minimal JSON value model covering the parts of `serde_json::Value`
used by `parse_transcript_content` in `src/transcript.rs`. -/
inductive Json
  | null
  | bool (b : Bool)
  | str (s : String)
  | arr (items : List Json)
  | obj (fields : List (String × Json))

/-- `Value::get(key)` on an object: first field with the given key. -/
def Json.get (j : Json) (key : String) : Option Json :=
  match j with
  | .obj fields => (fields.find? (fun p => p.1 == key)).map (fun p => p.2)
  | _ => none

/-- `Value::as_str`. -/
def Json.as_str : Json → Option String
  | .str s => some s
  | _ => none

/-- `Value::as_array`. -/
def Json.as_array : Json → Option (List Json)
  | .arr items => some items
  | _ => none

/-- `Value::as_bool`. -/
def Json.as_bool : Json → Option Bool
  | .bool b => some b
  | _ => none

/-- The accumulator threaded through the line loop of
`parse_transcript_content` (`last_role`, `pending`, `in_plan_mode`,
`last_assistant_tool_names`). -/
structure TailState where
  last_role : Option String
  pending : Bool
  in_plan_mode : Bool
  last_assistant_tool_names : List String
deriving DecidableEq, Repr

/-- Initial accumulator of `parse_transcript_content`. -/
def initTailState : TailState :=
  { last_role := none, pending := false, in_plan_mode := false
    last_assistant_tool_names := [] }

/-- `items.iter().filter_map(|c| c.get("type").and_then(|v| v.as_str()))`. -/
def contentTypes (items : List Json) : List String :=
  items.filterMap (fun c => (c.get "type").bind Json.as_str)

/-- The tool names collected from a `tool_use` content array
(src/transcript.rs lines 76-82). -/
def toolUseNames (items : List Json) : List String :=
  items.filterMap (fun item =>
    if (item.get "type").bind Json.as_str = some "tool_use" then
      (item.get "name").bind Json.as_str
    else none)

/-- `items.iter().any(|c| c.get("is_error")...unwrap_or(false))`
(src/transcript.rs lines 101-105). -/
def hasErrorResult (items : List Json) : Bool :=
  items.any (fun c => (((c.get "is_error").bind Json.as_bool).getD false))

/-- One iteration of the plan-mode name loop
(src/transcript.rs lines 95-112): `EnterPlanMode` sets the flag,
`ExitPlanMode` clears it unless the result was an error. -/
def applyToolName (in_plan : Bool) (is_error : Bool) (name : String) : Bool :=
  if name = "EnterPlanMode" then true
  else if name = "ExitPlanMode" then (if !is_error then false else in_plan)
  else in_plan

/-- The body of the line loop of `parse_transcript_content`
(src/transcript.rs lines 60-116) on one parsed JSON entry. -/
def processEntry (st : TailState) (entry : Json) : TailState :=
  let entry_type := ((entry.get "type").bind Json.as_str).getD ""
  let msg := ((entry.get "message").getD Json.null)
  let role := ((msg.get "role").bind Json.as_str).getD ""
  let content_arr := (msg.get "content").bind Json.as_array
  if entry_type = "assistant" ∧ role = "assistant" then
    let st1 := { st with last_role := some "assistant", last_assistant_tool_names := [] }
    match content_arr with
    | some items =>
        { st1 with
          pending := (contentTypes items).contains "tool_use"
          last_assistant_tool_names := toolUseNames items }
    | none => st1
  else if entry_type = "user" ∧ role = "user" then
    let st1 := { st with last_role := some "user" }
    match content_arr with
    | some items =>
        if (contentTypes items).contains "tool_result" then
          let is_error := hasErrorResult items
          { st1 with
            pending := false
            in_plan_mode := st.last_assistant_tool_names.foldl
              (fun pm name => applyToolName pm is_error name) st.in_plan_mode
            last_assistant_tool_names := [] }
        else st1
    | none => st1
  else st

/-- `parse_transcript_content` (src/transcript.rs lines 44-120), on the
list of successfully parsed JSONL lines.  Returns
`(last_role, has_pending_tool, in_plan_mode)`. -/
def parse_transcript_content (entries : List Json) : Option String × Bool × Bool :=
  let st := entries.foldl processEntry initTailState
  (st.last_role, st.pending, st.in_plan_mode)

/-- The status decision of `determine_status` / `determine_status_with_age`
(src/transcript.rs lines 148-180 and 199-226) as a function of the parsed
tail state and the file age in seconds (modelled as `ℚ`). -/
def statusFromTail (last_role : Option String) (pending in_plan_mode : Bool)
    (age : ℚ) : Status :=
  if pending ∧ 3 ≤ age then
    if in_plan_mode then .Pending
    else if age < 120 then .Pending else .Idle
  else if age < 10 then .Active
  else if last_role = some "user" then
    if age < 120 then .Active else .Idle
  else if in_plan_mode then .Pending
  else .Idle

/-- `determine_status_with_age` (src/transcript.rs lines 185-227):
transcript content is the parsed JSONL tail (`none` = no transcript),
age is `none` when the mtime could not be measured. -/
def determine_status_with_age (transcript_content : Option (List Json))
    (age : Option ℚ) : Status :=
  match age with
  | none => .Active
  | some a =>
    let parsed :=
      match transcript_content with
      | some [] => ((none : Option String), false, false)
      | some (e :: es) => parse_transcript_content (e :: es)
      | none => ((none : Option String), false, false)
    statusFromTail parsed.1 parsed.2.1 parsed.2.2 a

/-- `determine_status` (src/transcript.rs lines 131-181), with the file
system abstracted: `get_mtime_age` is the mtime-age lookup and
`tail_of` is `parse_transcript_tail` (reading and parsing the file's
last bytes). -/
def determine_status (transcript : Option String)
    (get_mtime_age : String → Option ℚ)
    (tail_of : String → Option String × Bool × Bool) : Status :=
  match transcript with
  | none => .Active
  | some t =>
    if t = "" then .Active
    else
      match get_mtime_age t with
      | none => .Active
      | some age =>
        let parsed := tail_of t
        statusFromTail parsed.1 parsed.2.1 parsed.2.2 age

/-- `project_hash` (src/transcript.rs lines 308-310):
`cwd.replace(['/', '_'], "-")`, i.e. each `/` or `_` character becomes
`-`. -/
def project_hash (cwd : String) : String :=
  String.mk (cwd.data.map (fun c => if c = '/' ∨ c = '_' then '-' else c))

/-- Lexicographic comparison of character lists by Unicode scalar value.
For UTF-8 encoded strings this coincides with Rust's byte-wise `Ord` on
`String` (UTF-8 byte order equals scalar-value order), which is what
`Vec::<String>::sort` uses in src/terminal.rs. -/
def charsLe : List Char → List Char → Bool
  | [], _ => true
  | _ :: _, [] => false
  | a :: as, b :: bs =>
    if a.toNat < b.toNat then true
    else if b.toNat < a.toNat then false
    else charsLe as bs

/-- String comparison used for the lexicographic TTY sorts. -/
def strLe (a b : String) : Bool :=
  charsLe a.data b.data

/-- The sort order on TTY paths, as a relation for `insertionSort`. -/
def StrOrd (a b : String) : Prop :=
  strLe a b = true

instance : DecidableRel StrOrd := fun a b => by
  unfold StrOrd; infer_instance

/-- `pid_by_tty.contains_key(tty)` with the `HashMap` modelled as an
association list (src/terminal.rs uses the map only through key
membership and key listing). -/
def containsKey (pid_by_tty : List (String × Nat)) (tty : String) : Bool :=
  pid_by_tty.any (fun p => p.1 == tty)

/-- The first loop of `merge_sessions` (src/terminal.rs lines 69-73):
walk the iTerm2 TTY list in order, keeping a TTY when it has a live
monitored process and was not seen before; `seen` is the `HashSet`,
represented by the list of TTYs inserted so far. -/
def phase1ttys (pid_by_tty : List (String × Nat)) :
    List String → List String → List String
  | [], _ => []
  | tty :: rest, seen =>
    if containsKey pid_by_tty tty && !(seen.contains tty) then
      tty :: phase1ttys pid_by_tty rest (tty :: seen)
    else
      phase1ttys pid_by_tty rest seen

/-- `merge_sessions` (src/terminal.rs lines 60-101).  The `HashSet`
`seen` is represented by the list of TTYs inserted so far; after phase 1
its members are exactly the phase-1 output TTYs, after phase 2 those plus
the phase-2 output TTYs, as in the Rust code. -/
def merge_sessions (iterm2_ttys alacritty_ttys : List String)
    (pid_by_tty : List (String × Nat)) : List (String × Terminal) :=
  let first := phase1ttys pid_by_tty iterm2_ttys []
  let alacritty :=
    (alacritty_ttys.filter (fun tty =>
      containsKey pid_by_tty tty && !(first.contains tty))).insertionSort StrOrd
  let seen2 := first ++ alacritty
  let unclaimed :=
    ((pid_by_tty.map Prod.fst).filter
      (fun tty => !(seen2.contains tty))).insertionSort StrOrd
  first.map (fun tty => (tty, Terminal.ITerm2))
    ++ alacritty.map (fun tty => (tty, Terminal.Alacritty))
    ++ unclaimed.map (fun tty => (tty, Terminal.Unknown))

/-- Spec-side helper: drop every element that occurs in `seen`, and
record kept elements so later duplicates are dropped too. -/
def dedupAvoid : List String → List String → List String
  | [], _ => []
  | t :: ts, seen =>
    if seen.contains t then dedupAvoid ts seen
    else t :: dedupAvoid ts (t :: seen)

/-- Spec-side helper: deduplicate a list keeping the first occurrence of
each element, preserving order. -/
def dedupFirst : List String → List String
  | [] => []
  | t :: ts => t :: dedupFirst (ts.filter (fun x => !(x == t)))
termination_by l => l.length
decreasing_by
  simp only [List.length_cons]
  exact Nat.lt_succ_of_le (List.length_filter_le _ _)

/-- The merge output as the specification describes it: live first-kind
TTYs in enumeration order with first occurrence winning, then live
not-yet-included second-kind TTYs sorted lexicographically, then the
remaining live TTYs sorted lexicographically and tagged Unknown. -/
def merge_sessions_spec (iterm2_ttys alacritty_ttys : List String)
    (pid_by_tty : List (String × Nat)) : List (String × Terminal) :=
  let first := dedupFirst (iterm2_ttys.filter (containsKey pid_by_tty))
  let second :=
    (alacritty_ttys.filter (fun tty =>
      containsKey pid_by_tty tty && !(first.contains tty))).insertionSort StrOrd
  let rest :=
    ((pid_by_tty.map Prod.fst).filter
      (fun tty => !((first ++ second).contains tty))).insertionSort StrOrd
  first.map (fun tty => (tty, Terminal.ITerm2))
    ++ second.map (fun tty => (tty, Terminal.Alacritty))
    ++ rest.map (fun tty => (tty, Terminal.Unknown))

/-- `SessionState` from `src/state.rs` (the PersistedClaim record). -/
structure SessionState where
  session_id : String
  transcript_path : String
deriving DecidableEq, Repr

/-- The filesystem facts `resolve_transcript` (src/transcript.rs lines
234-305) consults, abstracted:
* `state_file tty` — the parsed `session-<tty>.json` PersistedClaim in
  the state directory (`none` when the file is missing, unreadable or
  corrupt JSON);
* `is_file p` — whether path `p` currently exists as a file;
* `dir_ttys` — the TTYs of the `session-*.json` files that
  `read_dir(state_dir)` lists;
* `project_files` — the `.jsonl` files of the project directory with
  their mtimes, in directory order. -/
structure ResolveEnv where
  state_file : String → Option SessionState
  is_file : String → Bool
  dir_ttys : List String
  project_files : List (String × Nat)

/-- The claim-validity check shared by step 1 and the claimed-by-others
scan of `resolve_transcript` (src/transcript.rs lines 243-251 and
266-274): the state file parses and its `transcript_path` is nonempty
and still exists. -/
def validClaim (env : ResolveEnv) (tty : String) : Option String :=
  match env.state_file tty with
  | some st =>
    if st.transcript_path ≠ "" ∧ env.is_file st.transcript_path then
      some st.transcript_path
    else none
  | none => none

/-- The claimed-by-others scan of `resolve_transcript`
(src/transcript.rs lines 254-276): transcripts validly claimed by OTHER
active sessions. -/
def claimedByOthers (env : ResolveEnv) (tty_short : String)
    (active_ttys : List String) : List String :=
  env.dir_ttys.filterMap (fun tty =>
    if tty = tty_short ∨ ¬ active_ttys.contains tty then none
    else validClaim env tty)

/-- `resolve_transcript` (src/transcript.rs lines 234-305): the TTY's
own state file if its transcript still exists, otherwise the
most-recently-modified project transcript not claimed by another active
session, otherwise `""`.  `sort_by(|a, b| b.1.cmp(&a.1))` (stable,
mtime descending) is `insertionSort` with `b.2 ≤ a.2`. -/
def resolve_transcript (env : ResolveEnv) (tty_short : String)
    (active_ttys : List String) : String :=
  match validClaim env tty_short with
  | some p => p
  | none =>
    let claimed := claimedByOthers env tty_short active_ttys
    let sorted := env.project_files.insertionSort (fun a b => b.2 ≤ a.2)
    match sorted.find? (fun pr => !(claimed.contains pr.1)) with
    | some pr => pr.1
    | none => ""

/-- `find_claude_in_tree` (src/process.rs lines 142-157), the testable
ancestor walk.  `lookup pid = (comm, ppid, tty)`.  The unbounded Rust
`loop` is indexed by fuel: `some r` means the loop exits with result
`r` within `fuel` iterations, `none` means it is still running. -/
def find_claude_in_tree (fuel : Nat) (start_pid : Nat)
    (lookup : Nat → Option (String × Nat × Option String)) :
    Option (Option (Nat × String)) :=
  match fuel with
  | 0 => none
  | fuel + 1 =>
    if start_pid ≤ 1 then some none
    else
      match lookup start_pid with
      | none => some none
      | some (comm, ppid, tty) =>
        if comm = "claude" then some (tty.map (fun t => (start_pid, t)))
        else find_claude_in_tree fuel ppid lookup

/-- The walk diverges from `start_pid`: no number of loop iterations
makes it exit. -/
def WalkDiverges (lookup : Nat → Option (String × Nat × Option String))
    (start_pid : Nat) : Prop :=
  ∀ fuel, find_claude_in_tree fuel start_pid lookup = none

/-- A process table whose parent links contain a cycle: pid 2 is its own
parent. -/
def cyclicLookup : Nat → Option (String × Nat × Option String) :=
  fun p => if p = 2 then some ("zsh", 2, none) else none

/-- Spec-side relation (modelled from the spec's words in §4.1): the
walk from `pid` yields `r` — `none` at the root or on a failed lookup,
the pid/tty pair at the first ancestor named `claude` (and `none` there
when that ancestor has no tty). -/
inductive WalkSpec (lookup : Nat → Option (String × Nat × Option String)) :
    Nat → Option (Nat × String) → Prop
  | root {pid : Nat} : pid ≤ 1 → WalkSpec lookup pid none
  | missing {pid : Nat} : ¬ pid ≤ 1 → lookup pid = none →
      WalkSpec lookup pid none
  | found {pid : Nat} {comm : String} {ppid : Nat} {tty : Option String} :
      ¬ pid ≤ 1 → lookup pid = some (comm, ppid, tty) → comm = "claude" →
      WalkSpec lookup pid (tty.map (fun t => (pid, t)))
  | step {pid : Nat} {comm : String} {ppid : Nat} {tty : Option String}
      {r : Option (Nat × String)} :
      ¬ pid ≤ 1 → lookup pid = some (comm, ppid, tty) → comm ≠ "claude" →
      WalkSpec lookup ppid r → WalkSpec lookup pid r

/-- A transcript JSONL entry as the repository's own tests build them:
`{"type": etype, "message": {"role": role, "content": items}}`. -/
def mkEntry (etype role : String) (items : List Json) : Json :=
  .obj [("type", .str etype),
        ("message", .obj [("role", .str role), ("content", .arr items)])]

/-- A `tool_use` content item with a tool name. -/
def toolUseItem (name : String) : Json :=
  .obj [("type", .str "tool_use"), ("name", .str name)]

/-- A successful `tool_result` content item. -/
def toolResultItem : Json :=
  .obj [("type", .str "tool_result")]

/-- A `tool_result` content item flagged `is_error: true`. -/
def toolResultErrorItem : Json :=
  .obj [("type", .str "tool_result"), ("is_error", .bool true)]

/-- Concrete TTY paths for the merge scenario of the spec. -/
def tty0 : String := "/dev/ttys000"

def tty1 : String := "/dev/ttys001"

def tty2 : String := "/dev/ttys002"

def tty3 : String := "/dev/ttys003"

/-- A pid-by-tty map in which all four scenario TTYs are live. -/
def pidAll : List (String × Nat) :=
  [(tty0, 100), (tty1, 200), (tty2, 300), (tty3, 400)]

/-- Concrete resolver environment: two live sessions with valid,
distinct claims on two distinct existing files. -/
def envBothValid : ResolveEnv :=
  { state_file := fun tty =>
      if tty = "ttys000" then some ⟨"aaa", "/p/aaa.jsonl"⟩
      else if tty = "ttys009" then some ⟨"bbb", "/p/bbb.jsonl"⟩
      else none
    is_file := fun p => p == "/p/aaa.jsonl" || p == "/p/bbb.jsonl"
    dir_ttys := ["ttys000", "ttys009"]
    project_files := [("/p/aaa.jsonl", 50), ("/p/bbb.jsonl", 90)] }

/-- Concrete resolver environment: session ttys000's claim points at a
deleted file, session ttys009 claims the existing (and newest) file
`/p/bbb.jsonl`; `/p/aaa.jsonl` also exists. -/
def envStale : ResolveEnv :=
  { state_file := fun tty =>
      if tty = "ttys000" then some ⟨"gone", "/p/gone.jsonl"⟩
      else if tty = "ttys009" then some ⟨"bbb", "/p/bbb.jsonl"⟩
      else none
    is_file := fun p => p == "/p/aaa.jsonl" || p == "/p/bbb.jsonl"
    dir_ttys := ["ttys000", "ttys009"]
    project_files := [("/p/bbb.jsonl", 100), ("/p/aaa.jsonl", 95)] }

/-- Concrete resolver environment: a state file of the dead TTY ttys005
claims the newest log `/p/dead.jsonl`; ttys000 has no claim of its own. -/
def envDead : ResolveEnv :=
  { state_file := fun tty =>
      if tty = "ttys005" then some ⟨"dead", "/p/dead.jsonl"⟩ else none
    is_file := fun p => p == "/p/dead.jsonl" || p == "/p/live.jsonl"
    dir_ttys := ["ttys005"]
    project_files := [("/p/live.jsonl", 10), ("/p/dead.jsonl", 99)] }

/-- A concrete process table with strictly decreasing parent links:
pid 100 (`zsh`) → pid 50 (`claude`, tty /dev/ttys000) → pid 1. -/
def chainLookup : Nat → Option (String × Nat × Option String) :=
  fun p =>
    if p = 100 then some ("zsh", 50, some "/dev/ttys000")
    else if p = 50 then some ("claude", 1, some "/dev/ttys000")
    else none

/-! Theorems. -/

/-- C1: for every transcript tail state with an unresolved tool call and
every age `a ≥ 3`, the status is Pending whenever extended-review (plan)
mode is on — for every such `a`, with no upper bound — and with plan mode
off it is Pending for `a < 120` and Idle for `a ≥ 120`. -/
theorem pending_window_thresholds (last_role : Option String) (a : ℚ)
    (h3 : 3 ≤ a) :
    statusFromTail last_role true true a = Status.Pending ∧
    (a < 120 → statusFromTail last_role true false a = Status.Pending) ∧
    (120 ≤ a → statusFromTail last_role true false a = Status.Idle) := by
  refine ⟨?_, fun h => ?_, fun h => ?_⟩
  · simp [statusFromTail, h3]
  · simp [statusFromTail, h3, h]
  · simp [statusFromTail, h3, not_lt.mpr h]

/-- Witness for C1, with the spec's very large age 10000 in plan mode. -/
theorem pending_window_thresholds_witness :
    statusFromTail none true true 10000 = Status.Pending ∧
    statusFromTail none true false 5 = Status.Pending ∧
    statusFromTail none true false 120 = Status.Idle :=
  ⟨(pending_window_thresholds none 10000 (by norm_num)).1,
   (pending_window_thresholds none 5 (by norm_num)).2.1 (by norm_num),
   (pending_window_thresholds none 120 (by norm_num)).2.2 (by norm_num)⟩

/-- C6: with an unresolved tool call and any age `a < 3`, the status is
Active, for every role history and plan-mode flag (the 3-second grace
period). -/
theorem grace_period_active (last_role : Option String) (in_plan_mode : Bool)
    (a : ℚ) (h : a < 3) :
    statusFromTail last_role true in_plan_mode a = Status.Active := by
  have h10 : a < 10 := lt_trans h (by norm_num)
  simp [statusFromTail, not_le.mpr h, h10]

/-- Witness for C6 at age 1 with a user last role and plan mode on. -/
theorem grace_period_active_witness :
    statusFromTail (some "user") true true 1 = Status.Active :=
  grace_period_active (some "user") true 1 (by norm_num)

/-- C8: a missing or empty transcript path, or an unmeasurable age,
yields Active regardless of the tail oracle (no tail computation can
influence the result). -/
theorem missing_transcript_is_active :
    (∀ get_mtime_age tail_of,
      determine_status none get_mtime_age tail_of = Status.Active) ∧
    (∀ get_mtime_age tail_of,
      determine_status (some "") get_mtime_age tail_of = Status.Active) ∧
    (∀ t get_mtime_age tail_of, get_mtime_age t = none →
      determine_status (some t) get_mtime_age tail_of = Status.Active) ∧
    (∀ transcript_content,
      determine_status_with_age transcript_content none = Status.Active) := by
  refine ⟨fun _ _ => rfl, fun _ _ => by simp [determine_status],
    fun t ga tl h => ?_, fun _ => rfl⟩
  by_cases ht : t = ""
  · simp [determine_status, ht]
  · simp [determine_status, ht, h]

/-- Witness for C8 with a concrete path whose age lookup fails. -/
theorem missing_transcript_is_active_witness :
    determine_status (some "/p/a.jsonl") (fun _ => none)
      (fun _ => (some "assistant", true, true)) = Status.Active :=
  missing_transcript_is_active.2.2.1 "/p/a.jsonl" (fun _ => none)
    (fun _ => (some "assistant", true, true)) rfl

/-- C10: `project_hash` is not injective — `"/a_b"` and `"/a/b"` are
distinct working directories with the same hash `"-a-b"`, since both `/`
and `_` are replaced by `-`. -/
theorem project_hash_not_injective :
    project_hash "/a_b" = project_hash "/a/b" ∧
    ("/a_b" : String) ≠ "/a/b" ∧
    project_hash "/a_b" = "-a-b" ∧
    ¬ Function.Injective project_hash := by
  refine ⟨by decide, by decide, by decide, fun hinj => ?_⟩
  have h1 : project_hash "/a_b" = project_hash "/a/b" := by decide
  have h2 : ("/a_b" : String) ≠ "/a/b" := by decide
  exact h2 (hinj h1)

/-- C7: a user entry carrying a tool-result that resolves an assistant's
`EnterPlanMode` invocation turns extended-review mode on; one resolving
`ExitPlanMode` turns it off only when the result is not an error, and
leaves it on when the result is flagged as an error. -/
theorem plan_mode_transitions (st : TailState) (items : List Json)
    (hres : (contentTypes items).contains "tool_result" = true) :
    (st.last_assistant_tool_names = ["EnterPlanMode"] →
      (processEntry st (mkEntry "user" "user" items)).in_plan_mode = true) ∧
    (st.last_assistant_tool_names = ["ExitPlanMode"] →
      hasErrorResult items = false →
      (processEntry st (mkEntry "user" "user" items)).in_plan_mode = false) ∧
    (st.last_assistant_tool_names = ["ExitPlanMode"] →
      hasErrorResult items = true → st.in_plan_mode = true →
      (processEntry st (mkEntry "user" "user" items)).in_plan_mode = true) := by
  have hres' : "tool_result" ∈ contentTypes items := by simpa using hres
  refine ⟨fun hn => ?_, fun hn herr => ?_, fun hn herr hpm => ?_⟩
  · simp [processEntry, mkEntry, Json.get, Json.as_str, Json.as_array,
      hres', hn, applyToolName]
  · simp [processEntry, mkEntry, Json.get, Json.as_str, Json.as_array,
      hres', hn, applyToolName, herr]
  · simp [processEntry, mkEntry, Json.get, Json.as_str, Json.as_array,
      hres', hn, applyToolName, herr, hpm]

/-- Witness for C7: the three plan-mode transitions at concrete states
and content items. -/
theorem plan_mode_transitions_witness :
    (processEntry ⟨some "assistant", true, false, ["EnterPlanMode"]⟩
      (mkEntry "user" "user" [toolResultItem])).in_plan_mode = true ∧
    (processEntry ⟨some "assistant", true, true, ["ExitPlanMode"]⟩
      (mkEntry "user" "user" [toolResultItem])).in_plan_mode = false ∧
    (processEntry ⟨some "assistant", true, true, ["ExitPlanMode"]⟩
      (mkEntry "user" "user" [toolResultErrorItem])).in_plan_mode = true :=
  ⟨(plan_mode_transitions _ _ (by decide)).1 rfl,
   (plan_mode_transitions _ _ (by decide)).2.1 rfl (by decide),
   (plan_mode_transitions _ _ (by decide)).2.2 rfl (by decide) rfl⟩

/-- Monotonicity in fuel: once the walk exits, more fuel does not change
the result. -/
lemma find_claude_in_tree_mono :
    ∀ (fuel fuel' start_pid : Nat)
      (lookup : Nat → Option (String × Nat × Option String))
      (r : Option (Nat × String)),
      find_claude_in_tree fuel start_pid lookup = some r → fuel ≤ fuel' →
      find_claude_in_tree fuel' start_pid lookup = some r := by
  intro fuel
  induction fuel with
  | zero => intro fuel' s lookup r h; simp [find_claude_in_tree] at h
  | succ n ih =>
    intro fuel' s lookup r h hle
    obtain ⟨m, rfl⟩ : ∃ m, fuel' = m + 1 :=
      ⟨fuel' - 1, by omega⟩
    have hnm : n ≤ m := by omega
    by_cases hs : s ≤ 1
    · simp [find_claude_in_tree, hs] at h ⊢; exact h
    · cases hl : lookup s with
      | none => simp [find_claude_in_tree, hs, hl] at h ⊢; exact h
      | some e =>
        obtain ⟨c, q, t⟩ := e
        by_cases hc : c = "claude"
        · simp [find_claude_in_tree, hs, hl, hc] at h ⊢; exact h
        · simp [find_claude_in_tree, hs, hl, hc] at h ⊢
          exact ih m q lookup r h hnm

/-- C5 counterexample: on the cyclic process table `cyclicLookup`
(pid 2 is its own parent) the walk never exits — the claim's universal
termination statement is false. -/
theorem find_claude_in_tree_cyclic_diverges : WalkDiverges cyclicLookup 2 := by
  intro fuel
  induction fuel with
  | zero => rfl
  | succ n ih => simpa [find_claude_in_tree, cyclicLookup] using ih

/-- C5 amended: when every parent link of the table strictly decreases
the pid (as in a well-formed process table), the walk terminates —
`start_pid + 1` iterations suffice — and its result satisfies the
spec's walk relation: none at the root or on a failed lookup, and the
first ancestor named `claude` paired with its tty otherwise. -/
theorem find_claude_in_tree_terminates
    (lookup : Nat → Option (String × Nat × Option String)) (start_pid : Nat)
    (hdec : ∀ p e, lookup p = some e → e.2.1 < p) :
    ∃ r, find_claude_in_tree (start_pid + 1) start_pid lookup = some r ∧
      WalkSpec lookup start_pid r := by
  induction start_pid using Nat.strong_induction_on with
  | _ s ih =>
    by_cases hs : s ≤ 1
    · exact ⟨none, by simp [find_claude_in_tree, hs], WalkSpec.root hs⟩
    · cases hl : lookup s with
      | none =>
        exact ⟨none, by simp [find_claude_in_tree, hs, hl], WalkSpec.missing hs hl⟩
      | some e =>
        obtain ⟨c, q, t⟩ := e
        by_cases hc : c = "claude"
        · refine ⟨t.map (fun ty => (s, ty)), ?_, WalkSpec.found hs hl hc⟩
          simp [find_claude_in_tree, hs, hl, hc]
        · have hq : q < s := hdec s (c, q, t) hl
          obtain ⟨r, hrun, hspec⟩ := ih q hq
          refine ⟨r, ?_, WalkSpec.step hs hl hc hspec⟩
          have : find_claude_in_tree s q lookup = some r :=
            find_claude_in_tree_mono (q + 1) s q lookup r hrun (by omega)
          simpa [find_claude_in_tree, hs, hl, hc] using this

/-- Witness for the amended C5 on the concrete decreasing table
`chainLookup`. -/
theorem find_claude_in_tree_terminates_witness :
    ∃ r, find_claude_in_tree 101 100 chainLookup = some r ∧
      WalkSpec chainLookup 100 r := by
  refine find_claude_in_tree_terminates chainLookup 100 ?_
  intro p e h
  unfold chainLookup at h
  by_cases h1 : p = 100
  · subst h1; simp at h; subst h; simp
  · by_cases h2 : p = 50
    · subst h2; simp [h1] at h; subst h; simp
    · simp [h1, h2] at h

/-- Step 1 of the resolver: a valid own claim is returned unchanged. -/
lemma resolve_transcript_own_claim (env : ResolveEnv) (tty : String)
    (active : List String) (p : String) (h : validClaim env tty = some p) :
    resolve_transcript env tty active = p := by
  simp [resolve_transcript, h]

/-- Every transcript path in the claimed-by-others set comes from a
live TTY other than the resolving one, via a valid claim. -/
lemma mem_claimedByOthers (env : ResolveEnv) (tty : String)
    (active : List String) (p : String)
    (h : p ∈ claimedByOthers env tty active) :
    ∃ t, t ∈ env.dir_ttys ∧ t ≠ tty ∧ active.contains t = true ∧
      validClaim env t = some p := by
  obtain ⟨t, htmem, heq⟩ := List.mem_filterMap.mp h
  by_cases h1 : t = tty
  · simp [h1] at heq
  · simp [h1] at heq
    exact ⟨t, htmem, h1, by simpa using heq.1, heq.2⟩

/-- Converse direction: a valid claim of a live other TTY listed in the
state directory lands in the claimed-by-others set. -/
lemma claimedByOthers_mem (env : ResolveEnv) (tty t : String)
    (active : List String) (p : String)
    (ht : t ∈ env.dir_ttys) (hne : t ≠ tty)
    (hact : active.contains t = true) (hv : validClaim env t = some p) :
    p ∈ claimedByOthers env tty active := by
  have hact' : t ∈ active := by simpa using hact
  refine List.mem_filterMap.mpr ⟨t, ht, ?_⟩
  simp [hne, hact', hv]

/-- The fallback pick of the resolver never returns a path in the
claimed-by-others set (for a nonempty target path). -/
lemma resolve_transcript_fallback_cases (env : ResolveEnv) (tty : String)
    (active : List String) (hown : validClaim env tty = none) :
    resolve_transcript env tty active = "" ∨
    (claimedByOthers env tty active).contains
      (resolve_transcript env tty active) = false := by
  simp only [resolve_transcript, hown]
  cases hf : (env.project_files.insertionSort
      (fun a b => b.2 ≤ a.2)).find? (fun pr =>
        !((claimedByOthers env tty active).contains pr.1)) with
  | none => left; rfl
  | some pr =>
    right
    have hpred := List.find?_some hf
    simpa using hpred

/-- The fallback pick of the resolver never returns a path in the
claimed-by-others set (for a nonempty target path). -/
lemma resolve_transcript_avoids_claimed (env : ResolveEnv) (tty : String)
    (active : List String) (p : String)
    (hown : validClaim env tty = none)
    (hp : p ≠ "") (hclaimed : p ∈ claimedByOthers env tty active) :
    resolve_transcript env tty active ≠ p := by
  rcases resolve_transcript_fallback_cases env tty active hown with h | h
  · rw [h]; exact Ne.symm hp
  · intro hcontra
    rw [hcontra] at h
    have hmem : (claimedByOthers env tty active).contains p = true := by
      simpa using hclaimed
    rw [hmem] at h
    exact Bool.noConfusion h

/-- C2: for two live sessions with distinct TTYs whose PersistedClaims
both parse and point at distinct existing files, each resolves to
exactly its own claimed file and never the other's; and a file validly
claimed by a live session is never handed out as the fallback pick of
any other live session. -/
theorem resolve_ownership_exclusive (env : ResolveEnv) (A B : String)
    (active : List String) (stA stB : SessionState)
    (hAB : A ≠ B)
    (hactA : active.contains A = true) (hactB : active.contains B = true)
    (hA : env.state_file A = some stA) (hB : env.state_file B = some stB)
    (hpA : stA.transcript_path ≠ "") (hpB : stB.transcript_path ≠ "")
    (hfA : env.is_file stA.transcript_path = true)
    (hfB : env.is_file stB.transcript_path = true)
    (hdist : stA.transcript_path ≠ stB.transcript_path) :
    (resolve_transcript env A active = stA.transcript_path ∧
     resolve_transcript env B active = stB.transcript_path) ∧
    (resolve_transcript env A active ≠ stB.transcript_path ∧
     resolve_transcript env B active ≠ stA.transcript_path) ∧
    (∀ T, T ≠ B → B ∈ env.dir_ttys → validClaim env T = none →
      resolve_transcript env T active ≠ stB.transcript_path) := by
  have hvA : validClaim env A = some stA.transcript_path := by
    simp [validClaim, hA, hpA, hfA]
  have hvB : validClaim env B = some stB.transcript_path := by
    simp [validClaim, hB, hpB, hfB]
  have hres1 := resolve_transcript_own_claim env A active _ hvA
  have hres2 := resolve_transcript_own_claim env B active _ hvB
  refine ⟨⟨hres1, hres2⟩, ⟨by rw [hres1]; exact hdist,
    by rw [hres2]; exact fun h => hdist h.symm⟩, fun T hTB hBdir hTnone => ?_⟩
  exact resolve_transcript_avoids_claimed env T active _ hTnone hpB
    (claimedByOthers_mem env T B active _ hBdir (Ne.symm hTB) hactB hvB)

/-- Witness for C2 on the concrete two-session environment. -/
theorem resolve_ownership_exclusive_witness :
    resolve_transcript envBothValid "ttys000" ["ttys000", "ttys009"]
      = "/p/aaa.jsonl" ∧
    resolve_transcript envBothValid "ttys009" ["ttys000", "ttys009"]
      = "/p/bbb.jsonl" :=
  (resolve_ownership_exclusive envBothValid "ttys000" "ttys009"
    ["ttys000", "ttys009"] ⟨"aaa", "/p/aaa.jsonl"⟩ ⟨"bbb", "/p/bbb.jsonl"⟩
    (by decide) (by decide) (by decide) rfl rfl
    (by decide) (by decide) (by decide) (by decide) (by decide)).1

/-- C3: if live session A's claim points at a deleted file while live
session B validly claims existing file X, resolving A never returns X
(whatever the candidate files and their mtimes); every path in the
claimed-by-others scan stems from a live TTY, so a dead TTY's claim is
ignored — concretely, dead ttys005's claimed newest file `/p/dead.jsonl`
is handed to live ttys000 as the fallback pick, whereas the same claim
blocks it while ttys005 is still live. -/
theorem resolve_reclaim (env : ResolveEnv) (A B : String)
    (active : List String) (stA stB : SessionState)
    (hAB : A ≠ B)
    (hactA : active.contains A = true) (hactB : active.contains B = true)
    (hA : env.state_file A = some stA)
    (hfA : env.is_file stA.transcript_path = false)
    (hB : env.state_file B = some stB) (hBdir : B ∈ env.dir_ttys)
    (hpB : stB.transcript_path ≠ "")
    (hfB : env.is_file stB.transcript_path = true) :
    resolve_transcript env A active ≠ stB.transcript_path ∧
    (∀ p, p ∈ claimedByOthers env A active →
      ∃ t, t ∈ env.dir_ttys ∧ t ≠ A ∧ active.contains t = true ∧
        validClaim env t = some p) ∧
    resolve_transcript envDead "ttys000" ["ttys000"] = "/p/dead.jsonl" ∧
    resolve_transcript envDead "ttys000" ["ttys000", "ttys005"]
      = "/p/live.jsonl" := by
  have hvA : validClaim env A = none := by
    simp [validClaim, hA, hfA]
  have hvB : validClaim env B = some stB.transcript_path := by
    simp [validClaim, hB, hpB, hfB]
  refine ⟨?_, fun p hp => mem_claimedByOthers env A active p hp,
    by decide, by decide⟩
  exact resolve_transcript_avoids_claimed env A active _ hvA hpB
    (claimedByOthers_mem env A B active _ hBdir (fun h => hAB h.symm)
      hactB hvB)

/-- Witness for C3 on the concrete stale-claim environment. -/
theorem resolve_reclaim_witness :
    resolve_transcript envStale "ttys000" ["ttys000", "ttys009"]
      ≠ "/p/bbb.jsonl" :=
  (resolve_reclaim envStale "ttys000" "ttys009" ["ttys000", "ttys009"]
    ⟨"gone", "/p/gone.jsonl"⟩ ⟨"bbb", "/p/bbb.jsonl"⟩
    (by decide) (by decide) (by decide) rfl (by decide) rfl
    (by decide) (by decide) (by decide)).1

/-- Unfolding of the character-list comparison on two cons cells. -/
lemma charsLe_cons_iff (a b : Char) (as bs : List Char) :
    charsLe (a :: as) (b :: bs) = true ↔
      a.toNat < b.toNat ∨ (a.toNat = b.toNat ∧ charsLe as bs = true) := by
  simp only [charsLe]
  by_cases h1 : a.toNat < b.toNat
  · simp [h1]
  · by_cases h2 : b.toNat < a.toNat
    · simp only [if_neg h1, if_pos h2]
      constructor
      · intro h; exact Bool.noConfusion h
      · rintro (h | ⟨h, _⟩) <;> omega
    · simp only [if_neg h1, if_neg h2]
      constructor
      · intro h; exact Or.inr ⟨by omega, h⟩
      · rintro (h | ⟨_, h⟩)
        · exact absurd h h1
        · exact h

/-- Totality of the character-list comparison. -/
lemma charsLe_total : ∀ as bs : List Char,
    charsLe as bs = true ∨ charsLe bs as = true := by
  intro as
  induction as with
  | nil => intro bs; left; rfl
  | cons a as ih =>
    intro bs
    cases bs with
    | nil => right; rfl
    | cons b bs =>
      rw [charsLe_cons_iff, charsLe_cons_iff]
      rcases Nat.lt_trichotomy a.toNat b.toNat with h | h | h
      · exact Or.inl (Or.inl h)
      · rcases ih bs with hr | hr
        · exact Or.inl (Or.inr ⟨h, hr⟩)
        · exact Or.inr (Or.inr ⟨h.symm, hr⟩)
      · exact Or.inr (Or.inl h)

/-- Transitivity of the character-list comparison. -/
lemma charsLe_trans : ∀ as bs cs : List Char,
    charsLe as bs = true → charsLe bs cs = true → charsLe as cs = true := by
  intro as
  induction as with
  | nil => intro bs cs _ _; rfl
  | cons a as ih =>
    intro bs cs hab hbc
    cases bs with
    | nil => exact Bool.noConfusion hab
    | cons b bs =>
      cases cs with
      | nil => exact Bool.noConfusion hbc
      | cons c cs =>
        rw [charsLe_cons_iff] at hab hbc ⊢
        rcases hab with h | ⟨he, hr⟩ <;> rcases hbc with h' | ⟨he', hr'⟩
        · exact Or.inl (by omega)
        · exact Or.inl (by omega)
        · exact Or.inl (by omega)
        · exact Or.inr ⟨by omega, ih bs cs hr hr'⟩

/-- Antisymmetry of the character-list comparison. -/
lemma charsLe_antisymm : ∀ as bs : List Char,
    charsLe as bs = true → charsLe bs as = true → as = bs := by
  intro as
  induction as with
  | nil =>
    intro bs _ hba
    cases bs with
    | nil => rfl
    | cons b bs => exact Bool.noConfusion hba
  | cons a as ih =>
    intro bs hab hba
    cases bs with
    | nil => exact Bool.noConfusion hab
    | cons b bs =>
      rw [charsLe_cons_iff] at hab hba
      rcases hab with h | ⟨he, hr⟩ <;> rcases hba with h' | ⟨he', hr'⟩
      · omega
      · omega
      · omega
      · have hv : a.val.toNat = b.val.toNat := he
        have hc : a = b := Char.eq_of_val_eq (UInt32.ext hv)
        rw [hc, ih bs hr hr']

instance : IsTotal String StrOrd :=
  ⟨fun a b => charsLe_total a.data b.data⟩

instance : IsTrans String StrOrd :=
  ⟨fun a b c => charsLe_trans a.data b.data c.data⟩

instance : IsAntisymm String StrOrd :=
  ⟨fun a b hab hba => by
    have hd := charsLe_antisymm a.data b.data hab hba
    cases a
    cases b
    simp only at hd
    rw [hd]⟩

/-- Two permuted lists have the same lexicographic sort. -/
lemma insertionSort_perm_eq {l₁ l₂ : List String} (h : l₁.Perm l₂) :
    l₁.insertionSort StrOrd = l₂.insertionSort StrOrd := by
  refine List.eq_of_perm_of_sorted ?_ (List.sorted_insertionSort StrOrd l₁)
    (List.sorted_insertionSort StrOrd l₂)
  exact ((List.perm_insertionSort StrOrd l₁).trans h).trans
    (List.perm_insertionSort StrOrd l₂).symm

/-- The phase-1 loop equals avoid-set deduplication of the live-filtered
enumeration list. -/
lemma phase1ttys_eq (pid : List (String × Nat)) :
    ∀ (l seen : List String),
      phase1ttys pid l seen = dedupAvoid (l.filter (containsKey pid)) seen := by
  intro l
  induction l with
  | nil => intro seen; rfl
  | cons t ts ih =>
    intro seen
    have ep : phase1ttys pid (t :: ts) seen =
        if (containsKey pid t && !(seen.contains t)) = true
        then t :: phase1ttys pid ts (t :: seen)
        else phase1ttys pid ts seen := rfl
    by_cases hl : containsKey pid t = true
    · rw [List.filter_cons_of_pos hl]
      have ed : dedupAvoid (t :: ts.filter (containsKey pid)) seen =
          if seen.contains t = true
          then dedupAvoid (ts.filter (containsKey pid)) seen
          else t :: dedupAvoid (ts.filter (containsKey pid)) (t :: seen) := rfl
      by_cases hs : seen.contains t = true
      · rw [ep, if_neg (by rw [hl, hs]; simp), ed, if_pos hs, ih]
      · have hs' : seen.contains t = false := Bool.eq_false_iff.mpr hs
        rw [ep, if_pos (by rw [hl, hs']; rfl), ed, if_neg hs, ih]
    · have hl' : containsKey pid t = false := Bool.eq_false_iff.mpr hl
      rw [List.filter_cons_of_neg hl, ep, if_neg (by rw [hl']; simp), ih]

/-- Avoid-set deduplication is first-occurrence deduplication of the
not-yet-seen elements. -/
lemma dedupAvoid_eq_dedupFirst :
    ∀ (l seen : List String),
      dedupAvoid l seen = dedupFirst (l.filter (fun x => !(seen.contains x))) := by
  intro l
  induction l with
  | nil => intro seen; simp [dedupAvoid, dedupFirst]
  | cons t ts ih =>
    intro seen
    have ed : dedupAvoid (t :: ts) seen =
        if seen.contains t = true
        then dedupAvoid ts seen
        else t :: dedupAvoid ts (t :: seen) := rfl
    by_cases hs : seen.contains t = true
    · rw [List.filter_cons_of_neg (by rw [hs]; simp), ed, if_pos hs, ih]
    · have hs' : seen.contains t = false := Bool.eq_false_iff.mpr hs
      rw [List.filter_cons_of_pos (by rw [hs']; rfl), ed, if_neg hs,
        dedupFirst, ih (t :: seen)]
      refine congrArg (fun l => t :: l) (congrArg dedupFirst ?_)
      rw [List.filter_filter]
      refine List.filter_congr ?_
      intro x _
      simp only [List.contains_cons, Bool.not_or]

/-- Avoid-set deduplication with an empty avoid set is first-occurrence
deduplication. -/
lemma dedupAvoid_nil (l : List String) : dedupAvoid l [] = dedupFirst l := by
  rw [dedupAvoid_eq_dedupFirst]
  congr 1
  simp

/-- The merge implementation computes exactly the spec-side
decomposition. -/
lemma merge_sessions_eq_spec (iterm2_ttys alacritty_ttys : List String)
    (pid_by_tty : List (String × Nat)) :
    merge_sessions iterm2_ttys alacritty_ttys pid_by_tty =
      merge_sessions_spec iterm2_ttys alacritty_ttys pid_by_tty := by
  simp only [merge_sessions, merge_sessions_spec]
  rw [phase1ttys_eq, dedupAvoid_nil]

/-- Avoid-set deduplication only keeps elements of the input list. -/
lemma mem_dedupAvoid {x : String} :
    ∀ (l seen : List String), x ∈ dedupAvoid l seen → x ∈ l := by
  intro l
  induction l with
  | nil => intro seen h; exact absurd h (List.not_mem_nil x)
  | cons t ts ih =>
    intro seen h
    by_cases hs : seen.contains t
    · simp only [dedupAvoid, hs, reduceIte] at h
      exact List.mem_cons_of_mem t (ih seen h)
    · have hs' : seen.contains t = false := by simpa using hs
      simp only [dedupAvoid, hs', Bool.false_eq_true, reduceIte] at h
      rcases List.mem_cons.mp h with h | h
      · exact h ▸ List.mem_cons_self t ts
      · exact List.mem_cons_of_mem t (ih (t :: seen) h)

/-- A key of the pid map satisfies `containsKey`. -/
lemma containsKey_of_mem_keys (p : List (String × Nat)) (x : String)
    (h : x ∈ p.map Prod.fst) : containsKey p x = true := by
  obtain ⟨pr, hmem, hfst⟩ := List.mem_map.mp h
  simp only [containsKey, List.any_eq_true]
  exact ⟨pr, hmem, by simp [hfst]⟩

/-- Key membership is invariant under permutation of the pid map. -/
lemma containsKey_perm {p1 p2 : List (String × Nat)} (h : p1.Perm p2)
    (t : String) : containsKey p1 t = containsKey p2 t := by
  simp only [containsKey]
  rcases hx : p1.any (fun pr => pr.1 == t) with _ | _
  · symm
    rw [Bool.eq_false_iff]
    intro hy
    obtain ⟨pr, hmem, hb⟩ := List.any_eq_true.mp hy
    rw [Bool.eq_false_iff] at hx
    exact hx (List.any_eq_true.mpr ⟨pr, h.mem_iff.mpr hmem, hb⟩)
  · symm
    obtain ⟨pr, hmem, hb⟩ := List.any_eq_true.mp hx
    exact List.any_eq_true.mpr ⟨pr, h.mem_iff.mp hmem, hb⟩

/-- C4: the merge output decomposes exactly as specified — live first-kind
TTYs in enumeration order with first occurrence winning, then the live
second-kind TTYs not already included sorted lexicographically, then all
remaining live TTYs sorted lexicographically and tagged Unknown; the
spec's four-TTY scenario produces `[T0(A), T2(A), T1(B), T3(B)]`; and
every output entry has a live monitored process. -/
theorem merge_sessions_correct :
    (∀ (iterm2_ttys alacritty_ttys : List String)
        (pid_by_tty : List (String × Nat)),
        merge_sessions iterm2_ttys alacritty_ttys pid_by_tty =
          merge_sessions_spec iterm2_ttys alacritty_ttys pid_by_tty) ∧
    merge_sessions [tty0, tty2] [tty3, tty1] pidAll =
      [(tty0, Terminal.ITerm2), (tty2, Terminal.ITerm2),
       (tty1, Terminal.Alacritty), (tty3, Terminal.Alacritty)] ∧
    (∀ (iterm2_ttys alacritty_ttys : List String)
        (pid_by_tty : List (String × Nat))
        (pr : String × Terminal),
        pr ∈ merge_sessions iterm2_ttys alacritty_ttys pid_by_tty →
        containsKey pid_by_tty pr.1 = true) := by
  refine ⟨merge_sessions_eq_spec, by decide, ?_⟩
  intro i a p pr hmem
  rw [merge_sessions_eq_spec] at hmem
  simp only [merge_sessions_spec] at hmem
  rcases List.mem_append.mp hmem with hmem | hmem3
  · rcases List.mem_append.mp hmem with hmem1 | hmem2
    · obtain ⟨t, ht, rfl⟩ := List.mem_map.mp hmem1
      rw [← dedupAvoid_nil] at ht
      exact List.of_mem_filter (mem_dedupAvoid _ _ ht)
    · obtain ⟨t, ht, rfl⟩ := List.mem_map.mp hmem2
      have ht' := (List.perm_insertionSort StrOrd _).mem_iff.mp ht
      have hb := List.of_mem_filter ht'
      rw [Bool.and_eq_true] at hb
      exact hb.1
  · obtain ⟨t, ht, rfl⟩ := List.mem_map.mp hmem3
    have ht' := (List.perm_insertionSort StrOrd _).mem_iff.mp ht
    exact containsKey_of_mem_keys p t (List.mem_of_mem_filter ht')

/-- Witness for C4's liveness conjunct at the scenario input. -/
theorem merge_sessions_correct_witness : containsKey pidAll tty0 = true :=
  merge_sessions_correct.2.2 [tty0, tty2] [tty3, tty1] pidAll
    (tty0, Terminal.ITerm2) (by decide)

/-- C9: the merge output is a function of the pid map's contents alone —
permuting the map's entry order (hash-map iteration order) leaves the
ordered output unchanged. -/
theorem merge_sessions_deterministic (iterm2_ttys alacritty_ttys : List String)
    (p1 p2 : List (String × Nat)) (h : p1.Perm p2) :
    merge_sessions iterm2_ttys alacritty_ttys p1 =
      merge_sessions iterm2_ttys alacritty_ttys p2 := by
  rw [merge_sessions_eq_spec, merge_sessions_eq_spec]
  have hck : containsKey p1 = containsKey p2 :=
    funext (fun t => containsKey_perm h t)
  simp only [merge_sessions_spec]
  rw [hck, insertionSort_perm_eq ((h.map Prod.fst).filter _)]

/-- Witness for C9 on a two-entry map and its transposition. -/
theorem merge_sessions_deterministic_witness :
    merge_sessions [tty0] [tty1] [(tty1, 1), (tty2, 2)] =
      merge_sessions [tty0] [tty1] [(tty2, 2), (tty1, 1)] :=
  merge_sessions_deterministic [tty0] [tty1] _ _ (List.Perm.swap _ _ _)

end ClaudeMenubar
